import Mathlib

/-!
Verification of the MicroFeed client core: the feed reconciler (realtime
insert/update/delete notification handlers and pagination merge), the
storage reference codec, the per-author stats reducer, and the mutation
orchestrators, as implemented in src/App.tsx, src/lib/storage.ts,
src/types/user.ts and src/components/add-post.tsx.

JavaScript strings are modelled as lists of characters.  External browser
and service APIs (the WHATWG URL constructor, decodeURIComponent,
Date.parse, crypto.randomUUID, and the outcomes of network calls) are not
repository code; they enter the model as explicit parameters or as small
documented models, so every repository function is a total Lean function
over them.  A JavaScript exception escaping a function is modelled by the
value JSResult.thrown.
-/

namespace MicroFeed

/-- JavaScript strings, modelled as lists of (code-point) characters. -/
abbrev JSStr := List Char

/-- Coerce a Lean string literal into the JSStr model. -/
def str (s : String) : JSStr := s.data

/-- Result of a JavaScript computation: a value, or an uncaught exception. -/
inductive JSResult (α : Type) where
  | ok (value : α)
  | thrown
deriving DecidableEq

/-- Lexicographic code-unit comparison, the semantics of the JavaScript
relational operators on strings (as used in the sort comparator). -/
def jsStrLt : JSStr → JSStr → Bool
  | [], [] => false
  | [], _ :: _ => true
  | _ :: _, [] => false
  | a :: as, b :: bs => if a < b then true else if b < a then false else jsStrLt as bs

/-- Model of String.prototype.split with a single-character separator. -/
def jsSplitOn (c : Char) : JSStr → List JSStr
  | [] => [[]]
  | x :: xs =>
    if x = c then [] :: jsSplitOn c xs
    else
      match jsSplitOn c xs with
      | [] => [[x]]
      | y :: ys => (x :: y) :: ys

/-- Model of Array.prototype.join with a single-character separator. -/
def jsJoin (c : Char) : List JSStr → JSStr
  | [] => []
  | [x] => x
  | x :: xs => x ++ c :: jsJoin c xs

/-- Whether `m` occurs at the start of `s`. -/
def startsWith : JSStr → JSStr → Bool
  | [], _ => true
  | _ :: _, [] => false
  | a :: as, b :: bs => a == b && startsWith as bs

/-- Model of indexOf followed by slice(index + m.length): the remainder of
`s` after the first occurrence of `m`, or none when `m` does not occur. -/
def remainderAfter (m : JSStr) : JSStr → Option JSStr
  | [] => if startsWith m [] then some [] else none
  | x :: rest =>
    if startsWith m (x :: rest) then some ((x :: rest).drop m.length)
    else remainderAfter m rest

/-- Model of String.prototype.trim (whitespace stripped from both ends). -/
def jsTrim (s : JSStr) : JSStr :=
  ((s.dropWhile Char.isWhitespace).reverse.dropWhile Char.isWhitespace).reverse

/-- Model of String.prototype.toLowerCase, character by character. -/
def jsToLower (s : JSStr) : JSStr := s.map Char.toLower

/-- Value of a hexadecimal digit, none for a non-hex character, written
over the numeric character codes (48-57 digits, 97-102 and 65-70 letters). -/
def hexVal (c : Char) : Option Nat :=
  let n := c.toNat
  if 48 ≤ n && n ≤ 57 then some (n - 48)
  else if 97 ≤ n && n ≤ 102 then some (n - 87)
  else if 65 ≤ n && n ≤ 70 then some (n - 55)
  else none

/-- Byte-level model of the external decodeURIComponent builtin: each
percent escape must be followed by two hexadecimal digits, otherwise the
builtin throws URIError, modelled as none. -/
def percentDecode : JSStr → Option JSStr
  | [] => some []
  | c :: rest =>
    if c = '%' then
      match rest with
      | c1 :: c2 :: rest2 =>
        match hexVal c1, hexVal c2 with
        | some h1, some h2 => (percentDecode rest2).map (fun t => Char.ofNat (16 * h1 + h2) :: t)
        | _, _ => none
      | _ => none
    else (percentDecode rest).map (fun t => c :: t)

/-! ### Storage reference codec (src/lib/storage.ts) -/

def POSTS_STORAGE_BUCKET : JSStr := str "posts-images"

def POSTS_BUCKET_FOLDER : JSStr := str "posts"

/-- Marker variant primary, from createMarkerVariants. -/
def markerPrimary (bucket : JSStr) : JSStr :=
  str "/storage/v1/object/public/" ++ bucket ++ ['/']

/-- Marker variant secondary, from createMarkerVariants. -/
def markerSecondary (bucket : JSStr) : JSStr :=
  '/' :: bucket ++ ['/']

/-- createStoragePathForBucket.  The generated unique id (crypto.randomUUID
or the time-based fallback) is external randomness and enters as the
explicit argument `uuid`; the extension is fileName.split(".").pop(). -/
def createStoragePathForBucket (uuid bucketFolder fileName : JSStr) : JSStr :=
  let extension := ((jsSplitOn '.' fileName).getLast?).getD []
  bucketFolder ++ '/' :: uuid ++ (if extension = [] then [] else '.' :: extension)

/-- createStoragePath with its default posts folder. -/
def createStoragePath (uuid fileName : JSStr) : JSStr :=
  createStoragePathForBucket uuid POSTS_BUCKET_FOLDER fileName

/-- The try block of getStoragePathFromUrl, operating on the pathname of
the successfully parsed URL.  some r models a normal return (r is the
returned path-or-null); none models an exception thrown inside the try
block (decodeURIComponent failing), which transfers to the catch block. -/
def tryGetPath (pathname bucket : JSStr) : Option (Option JSStr) :=
  match remainderAfter (markerPrimary bucket) pathname with
  | some rest =>
    match percentDecode rest with
    | some d => some (some d)
    | none => none
  | none =>
    match remainderAfter (markerSecondary bucket) pathname with
    | some rest =>
      match percentDecode rest with
      | some d => some (some d)
      | none => none
    | none => some none

/-- The catch block of getStoragePathFromUrl: raw string search over the
unparsed url text, slicing after the first marker occurrence, dropping a
query suffix, then percent-decoding.  The decodeURIComponent call here is
not protected by any try, so its failure is an uncaught exception. -/
def catchGetPath (url bucket : JSStr) : JSResult (Option JSStr) :=
  match remainderAfter (markerPrimary bucket) url with
  | some rest =>
    match percentDecode (rest.takeWhile (fun c => c ≠ '?')) with
    | some d => .ok (some d)
    | none => .thrown
  | none =>
    match remainderAfter (markerSecondary bucket) url with
    | some rest =>
      match percentDecode (rest.takeWhile (fun c => c ≠ '?')) with
      | some d => .ok (some d)
      | none => .thrown
    | none => .ok none

/-- getStoragePathFromUrl.  The external URL constructor is modelled by the
argument `urlPathname`: some p when new URL(url) succeeds with pathname p,
none when it throws (control then reaches the catch block). -/
def getStoragePathFromUrl (urlPathname : Option JSStr) (url bucket : JSStr) :
    JSResult (Option JSStr) :=
  if url = [] then .ok none
  else
    match urlPathname with
    | none => catchGetPath url bucket
    | some pathname =>
      match tryGetPath pathname bucket with
      | some r => .ok r
      | none => catchGetPath url bucket

/-- composeImageReference: the template literal path, separator bar, url. -/
def composeImageReference (path publicUrl : JSStr) : JSStr :=
  path ++ '|' :: publicUrl

/-- The triple returned by parseImageReference. -/
structure ImageReference where
  raw : Option JSStr
  path : Option JSStr
  publicUrl : Option JSStr
deriving DecidableEq

/-- parseImageReference.  The external URL constructor is modelled by the
oracle `urlParse`, giving the pathname of a url when new URL succeeds. -/
def parseImageReference (urlParse : JSStr → Option JSStr) (value : Option JSStr)
    (bucket : JSStr) : JSResult ImageReference :=
  match value with
  | none => .ok ⟨none, none, none⟩
  | some v =>
    if v = [] then .ok ⟨none, none, none⟩
    else if v.contains '|' then
      let parts := jsSplitOn '|' v
      let pathPart := parts.headD []
      let joined := jsJoin '|' parts.tail
      let urlPart : Option JSStr := if joined = [] then none else some joined
      match
        (if pathPart ≠ [] then JSResult.ok (some pathPart)
         else
           match urlPart with
           | some u => getStoragePathFromUrl (urlParse u) u bucket
           | none => JSResult.ok none) with
      | .thrown => .thrown
      | .ok normalizedPath => .ok ⟨some v, normalizedPath, urlPart⟩
    else
      match getStoragePathFromUrl (urlParse v) v bucket with
      | .thrown => .thrown
      | .ok derivedPath =>
        let isLikelyPath := !startsWith (str "http://") v && !startsWith (str "https://") v
        .ok ⟨some v,
             (match derivedPath with
              | some d => some d
              | none => if isLikelyPath then some v else none),
             if isLikelyPath then none else some v⟩

/-! ### Post records and the feed reconciler (src/App.tsx, posts-channel) -/

/-- A post row (src/types/post.ts). -/
structure Post where
  id : Int
  title : JSStr
  description : JSStr
  email : JSStr
  image_url : Option JSStr
  created_at : JSStr
deriving DecidableEq

/-- The sort comparator of the INSERT handler:
a.created_at < b.created_at ? 1 : a.created_at > b.created_at ? -1 : 0. -/
def postCompare (a b : Post) : Int :=
  if jsStrLt a.created_at b.created_at then 1
  else if jsStrLt b.created_at a.created_at then -1
  else 0

/-- The ordering induced by the comparator: a may come before b. -/
def postLe (a b : Post) : Bool := postCompare a b ≤ 0

/-- Stable insertion of an element into a list, keeping it before the
first element it need not follow. -/
def insertSorted (le : Post → Post → Bool) (x : Post) : List Post → List Post
  | [] => [x]
  | y :: ys => if le x y then x :: y :: ys else y :: insertSorted le x ys

/-- Model of Array.prototype.sort with a consistent comparator: the
ECMAScript specification requires a stable sort, whose result is the
unique stable reordering; insertion sort computes it. -/
def stableSort (le : Post → Post → Bool) : List Post → List Post
  | [] => []
  | x :: xs => insertSorted le x (stableSort le xs)

/-- The posts-channel INSERT handler: no-op when the identifier is already
present, else prepend the new post and sort by the comparator. -/
def postsInsertHandler (previous : List Post) (newPost : Post) : List Post :=
  if previous.any (fun post => post.id == newPost.id) then previous
  else stableSort postLe (newPost :: previous)

/-- The posts-channel UPDATE handler: replace the matching post in place. -/
def postsUpdateHandler (prev : List Post) (updatedPost : Post) : List Post :=
  prev.map (fun post => if post.id == updatedPost.id then updatedPost else post)

/-- The posts-channel DELETE handler: drop the matching post. -/
def postsDeleteHandler (prev : List Post) (deletedPost : Post) : List Post :=
  prev.filter (fun post => post.id != deletedPost.id)

/-- Number of records in the collection carrying a given identifier. -/
def countId (l : List Post) (i : Int) : Nat :=
  l.countP (fun post => post.id == i)

/-- Whether some record in the collection carries the identifier. -/
def containsId (l : List Post) (i : Int) : Bool :=
  l.any (fun post => post.id == i)

/-! ### Task reducer (src/types/user.ts) -/

/-- A task row; the reducer only inspects the identifier. -/
structure Task where
  id : Int
  title : JSStr
  description : JSStr
  created_at : JSStr
deriving DecidableEq

/-- The actions of taskReducer. -/
inductive TaskAction where
  | setTasks (payload : List Task)
  | addTask (payload : Task)
  | updateTask (payload : Task)
  | deleteTask (payload : Int)
deriving DecidableEq

/-- taskReducer from src/types/user.ts. -/
def taskReducer (state : List Task) : TaskAction → List Task
  | .setTasks payload => payload
  | .addTask payload => state ++ [payload]
  | .updateTask payload =>
    state.map (fun task => if task.id == payload.id then payload else task)
  | .deleteTask payload => state.filter (fun task => task.id != payload)

/-! ### Pagination merge (src/App.tsx, loadMorePosts) -/

def POSTS_PAGE_SIZE : Nat := 5

/-- The setPosts updater of loadMorePosts: keep the loaded list and append
the fetched page minus every record whose identifier is already loaded. -/
def mergePage (previous fetched : List Post) : List Post :=
  let existingIds := previous.map (fun post => post.id)
  previous ++ fetched.filter (fun post => !(existingIds.contains post.id))

/-- The hasMorePosts flag after a loadMorePosts fetch that started with the
flag equal to hasMore (the fetch only runs when it is true): it is set to
false exactly when the page came back shorter than the requested size. -/
def hasMoreAfterLoad (hasMore : Bool) (fetched : List Post) (pageSize : Nat) : Bool :=
  if fetched.length < pageSize then false else hasMore

/-- The presentation-order invariant of the feed: newest first, under the
ordering induced by the sort comparator. -/
def sortedDesc (l : List Post) : Prop :=
  l.Pairwise (fun a b => postLe a b = true)

/-- A concrete sample record, used to instantiate theorems. -/
def samplePost (i : Int) (t : JSStr) : Post :=
  ⟨i, str "title", str "", str "e@x", none, t⟩

/-! ### Per-author stats reducer (src/App.tsx, refreshPostStats) -/

/-- A row of the select email, created_at query; none models a value that
is not a string (typeof guard in the source). -/
structure StatsRow where
  email : Option JSStr
  created_at : Option JSStr
deriving DecidableEq

/-- The per-author aggregate. -/
structure PostStats where
  count : Nat
  lastPostAt : Option JSStr
deriving DecidableEq

/-- The stats object, keyed by normalized email. -/
abbrev StatsMap := List (JSStr × PostStats)

/-- Property lookup on the stats object. -/
def statsLookup (m : StatsMap) (k : JSStr) : Option PostStats :=
  match m with
  | [] => none
  | e :: rest => if e.1 == k then some e.2 else statsLookup rest k

/-- Property assignment on the stats object: replace or append. -/
def statsInsert (k : JSStr) (v : PostStats) : StatsMap → StatsMap
  | [] => [(k, v)]
  | e :: rest => if e.1 == k then (k, v) :: rest else e :: statsInsert k v rest

/-- Email normalization applied by the source: trim then lower-case. -/
def normalizeEmail (e : JSStr) : JSStr := jsToLower (jsTrim e)

/-- The key under which a row is aggregated: none when its email is not a
string or is empty after normalization (the row is skipped). -/
def rowKey (r : StatsRow) : Option JSStr :=
  match r.email with
  | none => none
  | some e =>
    let k := normalizeEmail e
    if k = [] then none else some k

/-- The per-row update of the aggregate for the row author: the count
always grows by one; lastPostAt moves to the row timestamp only when that
timestamp is a non-empty string that parses (Date.parse, modelled by the
external oracle dateParse) strictly later than the current one. -/
def updateStats (dateParse : JSStr → Option Int) (existing : PostStats)
    (r : StatsRow) : PostStats :=
  let withCount : PostStats := ⟨existing.count + 1, existing.lastPostAt⟩
  match r.created_at with
  | none => withCount
  | some createdAt =>
    if createdAt = [] then withCount
    else
      match dateParse createdAt with
      | none => withCount
      | some newTimestamp =>
        match withCount.lastPostAt with
        | none => ⟨withCount.count, some createdAt⟩
        | some prev =>
          match dateParse prev with
          | none => withCount
          | some previousTimestamp =>
            if previousTimestamp < newTimestamp then ⟨withCount.count, some createdAt⟩
            else withCount

/-- One iteration of the refreshPostStats loop. -/
def statsStep (dateParse : JSStr → Option Int) (stats : StatsMap)
    (r : StatsRow) : StatsMap :=
  match rowKey r with
  | none => stats
  | some key =>
    let existing := (statsLookup stats key).getD ⟨0, none⟩
    statsInsert key (updateStats dateParse existing r) stats

/-- refreshPostStats: fold the rows of the full post set into a fresh map. -/
def refreshPostStats (dateParse : JSStr → Option Int) (rows : List StatsRow) : StatsMap :=
  rows.foldl (statsStep dateParse) []

/-- The rows aggregated under a given key. -/
def ownRows (rows : List StatsRow) (key : JSStr) : List StatsRow :=
  rows.filter (fun r => rowKey r == some key)

/-- The parsed timestamps contributed by a list of rows. -/
def rowParses (dateParse : JSStr → Option Int) (rows : List StatsRow) : List Int :=
  rows.filterMap (fun r => r.created_at.bind dateParse)

/-- The per-key view of one loop iteration: how the entry of a fixed
author evolves when one of that author's rows is processed. -/
def perKeyStep (dateParse : JSStr → Option Int)
    (st : Option PostStats) (r : StatsRow) : Option PostStats :=
  some (updateStats dateParse (st.getD ⟨0, none⟩) r)

/-- A concrete Date.parse oracle for the one-digit sample timestamps. -/
def sampleDateParse : JSStr → Option Int := fun s =>
  match s with
  | ['1'] => some 1
  | ['2'] => some 2
  | ['3'] => some 3
  | _ => none

/-- The sample post set of the stats recomputation property. -/
def sampleRows : List StatsRow :=
  [⟨some (str "a"), some (str "1")⟩,
   ⟨some (str "a"), some (str "2")⟩,
   ⟨some (str "b"), some (str "3")⟩]

/-! ### Mutation orchestrators (src/App.tsx and src/components/add-post.tsx) -/

/-- Observable service calls and terminal user notifications issued by
handleDeletePost, in order. -/
inductive DeleteEvent where
  | storageRemove (path : JSStr)
  | dbDelete (id : Int)
  | toastError
  | toastSuccess
deriving DecidableEq

/-- The database half of handleDeletePost: the delete call and its single
outcome toast. -/
def deleteDbPart (dbOk : Bool) (id : Int) : List DeleteEvent :=
  [.dbDelete id] ++ (if dbOk then [.toastSuccess] else [.toastError])

/-- handleDeletePost as a trace of its service calls and outcome toasts.
External outcomes enter as parameters: urlParse models the URL
constructor inside parseImageReference, storageOk whether the storage
remove call succeeds, dbOk whether the database delete succeeds.  The
source guards the storage delete with the truthiness test on
reference.path, which fails both for a missing path and for the
empty-string path, so the empty path also skips straight to the database
delete.  The initial loading toast and console logging are not observable
outcomes and are omitted.  An exception escaping parseImageReference is
caught by the surrounding try and surfaced as the error toast. -/
def handleDeletePost (urlParse : JSStr → Option JSStr) (storageOk dbOk : Bool)
    (post : Post) : List DeleteEvent :=
  match parseImageReference urlParse post.image_url POSTS_STORAGE_BUCKET with
  | .thrown => [.toastError]
  | .ok reference =>
    match reference.path with
    | some p =>
      if p = [] then deleteDbPart dbOk post.id
      else if storageOk then .storageRemove p :: deleteDbPart dbOk post.id
      else [.storageRemove p, .toastError]
    | none => deleteDbPart dbOk post.id

/-- Terminal outcome notifications reported to the user. -/
inductive Toast where
  | success
  | error
deriving DecidableEq

/-- handleAddPost (src/App.tsx) as its trace of outcome toasts: nothing
without a session, otherwise exactly one outcome depending on the insert
result. -/
def handleAddPostToasts (hasSession insertOk : Bool) : List Toast :=
  if !hasSession then []
  else if insertOk then [Toast.success] else [Toast.error]

/-- onSubmit (src/components/add-post.tsx) as its trace of outcome toasts.
hasFile: an image file is attached; uploadOk: the storage upload succeeds;
calleeToasts: the toasts emitted by the awaited onAddPost call.  A failing
upload throws into the catch block which emits the error toast; the
finally block then emits the success toast unconditionally. -/
def onSubmitToasts (hasFile uploadOk : Bool) (calleeToasts : List Toast) : List Toast :=
  (if hasFile && !uploadOk then [Toast.error] else calleeToasts) ++ [Toast.success]

/-! ### Helper lemmas on the string model -/

theorem jsSplitOn_ne_nil (c : Char) (s : JSStr) : jsSplitOn c s ≠ [] := by
  cases s with
  | nil => simp [jsSplitOn]
  | cons x xs =>
    simp only [jsSplitOn]
    by_cases h : x = c
    · simp [h]
    · simp only [h, if_false]
      cases jsSplitOn c xs <;> simp

theorem jsSplitOn_of_not_mem (c : Char) (s : JSStr) (h : c ∉ s) : jsSplitOn c s = [s] := by
  induction s with
  | nil => rfl
  | cons x xs ih =>
    simp only [List.mem_cons, not_or] at h
    have hxc : ¬x = c := fun hh => h.1 hh.symm
    simp [jsSplitOn, hxc, ih h.2]

theorem jsSplitOn_append_sep (c : Char) (p u : JSStr) (h : c ∉ p) :
    jsSplitOn c (p ++ c :: u) = p :: jsSplitOn c u := by
  induction p with
  | nil => simp [jsSplitOn]
  | cons x xs ih =>
    simp only [List.mem_cons, not_or] at h
    have hxc : ¬x = c := fun hh => h.1 hh.symm
    simp [jsSplitOn, hxc, ih h.2]

theorem jsSplitOn_sep_append (c : Char) (xs ys : JSStr) :
    jsSplitOn c (xs ++ c :: ys) = jsSplitOn c xs ++ jsSplitOn c ys := by
  induction xs with
  | nil => simp [jsSplitOn]
  | cons x l ih =>
    obtain ⟨y, ys', hy⟩ : ∃ y ys', jsSplitOn c l = y :: ys' := by
      cases hl : jsSplitOn c l with
      | nil => exact absurd hl (jsSplitOn_ne_nil c l)
      | cons y ys' => exact ⟨y, ys', rfl⟩
    by_cases hxc : x = c
    · subst hxc
      simp [jsSplitOn, ih]
    · simp [jsSplitOn, hxc, ih, hy]

theorem jsJoin_jsSplitOn (c : Char) (s : JSStr) : jsJoin c (jsSplitOn c s) = s := by
  induction s with
  | nil => rfl
  | cons x xs ih =>
    by_cases hxc : x = c
    · subst hxc
      simp only [jsSplitOn, if_pos rfl]
      obtain ⟨y, ys', hy⟩ : ∃ y ys', jsSplitOn x xs = y :: ys' := by
        cases hl : jsSplitOn x xs with
        | nil => exact absurd hl (jsSplitOn_ne_nil x xs)
        | cons y ys' => exact ⟨y, ys', rfl⟩
      rw [hy] at ih ⊢
      simpa [jsJoin] using ih
    · simp only [jsSplitOn, hxc, if_neg]
      obtain ⟨y, ys', hy⟩ : ∃ y ys', jsSplitOn c xs = y :: ys' := by
        cases hl : jsSplitOn c xs with
        | nil => exact absurd hl (jsSplitOn_ne_nil c xs)
        | cons y ys' => exact ⟨y, ys', rfl⟩
      rw [hy] at ih ⊢
      cases ys' with
      | nil => simpa [jsJoin] using ih
      | cons z zs => simpa [jsJoin] using ih

theorem contains_of_mem {c : Char} {s : JSStr} (h : c ∈ s) : s.contains c = true := by
  simpa [List.elem_iff] using h

/-! ### Claim C2 (corrected): reference round-trip -/

/-- Claim C2 counterexample: the round-trip fails as universally stated.
With path "a|b" (containing the separator) and the empty URL, parsing the
composed reference does not return the original pair: the split assigns
only "a" to the path and "b|" to the URL. -/
theorem reference_roundtrip_counterexample :
    parseImageReference (fun _ => none)
        (some (composeImageReference (str "a|b") (str ""))) POSTS_STORAGE_BUCKET
      ≠ JSResult.ok ⟨some (composeImageReference (str "a|b") (str "")),
                     some (str "a|b"), some (str "")⟩ := by decide

/-- Claim C2 (amended): for every non-empty path p that does not contain
the separator bar and every non-empty URL u, parsing the composed
reference returns the original pair, for any behaviour of the external
URL parser; this holds even when u itself contains the separator, because
parsing splits on the first separator only and rejoins the remainder. -/
theorem reference_roundtrip (urlParse : JSStr → Option JSStr) (bucket p u : JSStr)
    (hp : p ≠ []) (hsep : '|' ∉ p) (hu : u ≠ []) :
    parseImageReference urlParse (some (composeImageReference p u)) bucket
      = JSResult.ok ⟨some (p ++ '|' :: u), some p, some u⟩ := by
  have hcontains : (p ++ '|' :: u).contains '|' = true :=
    contains_of_mem (by simp)
  have hsplit : jsSplitOn '|' (p ++ '|' :: u) = p :: jsSplitOn '|' u :=
    jsSplitOn_append_sep '|' p u hsep
  have hne : p ++ '|' :: u ≠ [] := by simp
  simp [parseImageReference, composeImageReference, hne, hcontains, hsplit,
    List.headD_cons, List.tail_cons, jsJoin_jsSplitOn, hu, hp]

/-- Claim C2 witness: the amended round-trip at the concrete path
posts/x.png and a URL containing both a query string and a separator. -/
theorem reference_roundtrip_witness :
    parseImageReference (fun _ => none)
        (some (composeImageReference (str "posts/x.png") (str "https://h/a?v=1|2")))
        POSTS_STORAGE_BUCKET
      = JSResult.ok ⟨some (str "posts/x.png" ++ '|' :: str "https://h/a?v=1|2"),
                     some (str "posts/x.png"), some (str "https://h/a?v=1|2")⟩ :=
  reference_roundtrip (fun _ => none) POSTS_STORAGE_BUCKET
    (str "posts/x.png") (str "https://h/a?v=1|2")
    (by decide) (by decide) (by decide)

/-! ### Claim C3 (code bug): the parse and derive operations can throw -/

/-- Claim C3: the source intends totality (the try block falls back to raw
string search), but the decodeURIComponent call in the catch fallback of
getStoragePathFromUrl is unprotected: on the input "/posts-images/%" (the
URL constructor throws on a relative URL, the secondary bucket marker
matches, and the remainder "%" is malformed percent-encoding) both
getStoragePathFromUrl and parseImageReference raise URIError instead of
degrading to null. -/
theorem storage_parse_throws_on_malformed_percent :
    getStoragePathFromUrl none (str "/posts-images/%") POSTS_STORAGE_BUCKET
        = JSResult.thrown
    ∧ parseImageReference (fun _ => none) (some (str "/posts-images/%"))
        POSTS_STORAGE_BUCKET = JSResult.thrown := by decide

/-! ### Claim C4 (corrected): no identifier tie-break in the sort order -/

/-- Claim C4 counterexample: two records sharing a creation timestamp but
with distinct identifiers compare as equal (the comparator never inspects
identifiers), and delivering the same two insert notifications in the two
possible arrival orders produces two different lists from the same
multiset of records. -/
theorem tie_break_counterexample :
    (let pa : Post := ⟨1, str "p1", str "", str "a@x", none, str "2024-01-01T00:00:00Z"⟩
     let pb : Post := ⟨2, str "p2", str "", str "b@x", none, str "2024-01-01T00:00:00Z"⟩
     postCompare pa pb = 0 ∧ pa.id ≠ pb.id ∧
       postsInsertHandler (postsInsertHandler [] pa) pb
         ≠ postsInsertHandler (postsInsertHandler [] pb) pa) := by decide

/-- Claim C4 (amended): when two records share an identical creation
timestamp the comparator returns 0 without falling back to identifiers,
so the stable sort keeps timestamp ties in arrival order and the
resulting list is a function of arrival order, not of the multiset alone. -/
theorem tie_break_returns_zero (a b : Post) (h : a.created_at = b.created_at) :
    postCompare a b = 0 := by
  have hlt : ∀ s : JSStr, jsStrLt s s = false := by
    intro s
    induction s with
    | nil => rfl
    | cons x xs ih => simp [jsStrLt, ih]
  simp [postCompare, h, hlt]

/-- Claim C4 witness: tie-break theorem applied to two concrete records
with equal timestamps and distinct identifiers. -/
theorem tie_break_returns_zero_witness :
    postCompare ⟨1, str "p1", str "", str "a@x", none, str "t"⟩
        ⟨2, str "p2", str "", str "b@x", none, str "t"⟩ = 0 :=
  tie_break_returns_zero _ _ rfl

/-! ### Claim C7 (code bug): double terminal outcome in the create flow -/

/-- Claim C7: the create orchestrator onSubmit in add-post.tsx places its
success toast in the finally block, so it runs unconditionally: when the
image upload fails, the invocation reports an error toast and then a
success toast, and when everything succeeds the user receives the callee
success toast plus a second success toast - never exactly one terminal
outcome. -/
theorem create_reports_two_outcomes :
    onSubmitToasts true false [] = [Toast.error, Toast.success]
    ∧ onSubmitToasts true true (handleAddPostToasts true true)
        = [Toast.success, Toast.success] := by decide

/-! ### Claim C10 (corrected): storage path extension -/

/-- Claim C10 counterexample: the non-empty file name "a." produces a path
with no extension suffix, contradicting the clause that only the empty
file name does. -/
theorem storage_path_extension_counterexample :
    createStoragePathForBucket (str "u") (str "posts") (str "a.") = str "posts/u"
    ∧ str "a." ≠ [] := by decide

/-- Claim C10 (amended): for a non-empty file name containing no dot the
entire name becomes the extension suffix; a file name whose part after
the last dot is empty - the empty name or a name ending in a dot -
produces no suffix; and when the part after the last dot is non-empty it
is exactly the suffix. -/
theorem storage_path_extension (uuid folder fileName base ext : JSStr)
    (hnodot : '.' ∉ fileName) (hne : fileName ≠ [])
    (hextnodot : '.' ∉ ext) (hextne : ext ≠ []) :
    createStoragePathForBucket uuid folder fileName
        = folder ++ '/' :: uuid ++ '.' :: fileName
    ∧ createStoragePathForBucket uuid folder [] = folder ++ '/' :: uuid
    ∧ createStoragePathForBucket uuid folder (base ++ ['.'])
        = folder ++ '/' :: uuid
    ∧ createStoragePathForBucket uuid folder (base ++ '.' :: ext)
        = folder ++ '/' :: uuid ++ '.' :: ext := by
  refine ⟨?_, ?_, ?_, ?_⟩
  · simp [createStoragePathForBucket, jsSplitOn_of_not_mem '.' fileName hnodot, hne]
  · simp [createStoragePathForBucket, jsSplitOn]
  · have h : jsSplitOn '.' (base ++ '.' :: ([] : JSStr))
        = jsSplitOn '.' base ++ [[]] := jsSplitOn_sep_append '.' base []
    simp [createStoragePathForBucket, h, List.getLast?_concat]
  · have h : jsSplitOn '.' (base ++ '.' :: ext)
        = jsSplitOn '.' base ++ [ext] := by
      rw [jsSplitOn_sep_append '.' base ext, jsSplitOn_of_not_mem '.' ext hextnodot]
    simp [createStoragePathForBucket, h, List.getLast?_concat, hextne]

/-- Claim C10 witness: the amended extension rules at concrete file names
noext, the empty name, "a.", and "archive.tar.gz". -/
theorem storage_path_extension_witness :
    createStoragePathForBucket (str "u") (str "posts") (str "noext")
        = str "posts" ++ '/' :: str "u" ++ '.' :: str "noext"
    ∧ createStoragePathForBucket (str "u") (str "posts") [] = str "posts" ++ '/' :: str "u"
    ∧ createStoragePathForBucket (str "u") (str "posts") (str "archive.tar" ++ ['.'])
        = str "posts" ++ '/' :: str "u"
    ∧ createStoragePathForBucket (str "u") (str "posts") (str "archive.tar" ++ '.' :: str "gz")
        = str "posts" ++ '/' :: str "u" ++ '.' :: str "gz" :=
  storage_path_extension (str "u") (str "posts") (str "noext") (str "archive.tar") (str "gz")
    (by decide) (by decide) (by decide) (by decide)

/-! ### Claim C1: idempotent notification handlers -/

theorem insertSorted_perm (le : Post → Post → Bool) (x : Post) (l : List Post) :
    (insertSorted le x l).Perm (x :: l) := by
  induction l with
  | nil => exact List.Perm.refl _
  | cons y ys ih =>
    simp only [insertSorted]
    by_cases h : le x y = true
    · simp [h]
    · simp only [h, if_false]
      exact (ih.cons y).trans (List.Perm.swap x y ys)

theorem stableSort_perm (le : Post → Post → Bool) (l : List Post) :
    (stableSort le l).Perm l := by
  induction l with
  | nil => exact List.Perm.refl _
  | cons x xs ih =>
    exact (insertSorted_perm le x (stableSort le xs)).trans (ih.cons x)

theorem countId_stableSort (le : Post → Post → Bool) (l : List Post) (i : Int) :
    countId (stableSort le l) i = countId l i :=
  (stableSort_perm le l).countP_eq _

theorem containsId_of_countId_pos {l : List Post} {i : Int} (h : countId l i ≠ 0) :
    containsId l i = true := by
  cases hany : containsId l i with
  | true => rfl
  | false =>
    exact absurd (List.countP_eq_zero.mpr (List.any_eq_false.mp hany)) h

theorem containsId_false_elim {l : List Post} {i : Int} (h : containsId l i = false) :
    ∀ post ∈ l, (post.id == i) = false := fun post hpost =>
  Bool.eq_false_iff.mpr (List.any_eq_false.mp h post hpost)

/-- Claim C1: the posts-channel notification handlers are idempotent under
at-least-once delivery.  Re-delivering an insert notification is a no-op
(and from a collection free of the identifier, two deliveries leave
exactly one record of it); an insert whose identifier is already present
is a no-op; an update for an absent identifier leaves the collection
unchanged; a delete for an absent identifier leaves the collection
unchanged; and the same absent-identifier no-ops hold for the update and
delete actions of the task reducer.  All handlers are total functions, so
none raises. -/
theorem handlers_idempotent (l : List Post) (p u d : Post)
    (ts : List Task) (tu : Task) (td : Int) :
    (postsInsertHandler (postsInsertHandler l p) p = postsInsertHandler l p)
    ∧ (countId l p.id = 0 →
        countId (postsInsertHandler (postsInsertHandler l p) p) p.id = 1)
    ∧ (containsId l p.id = true → postsInsertHandler l p = l)
    ∧ (containsId l u.id = false → postsUpdateHandler l u = l)
    ∧ (containsId l d.id = false → postsDeleteHandler l d = l)
    ∧ (ts.any (fun t => t.id == tu.id) = false → taskReducer ts (.updateTask tu) = ts)
    ∧ (ts.any (fun t => t.id == td) = false → taskReducer ts (.deleteTask td) = ts) := by
  have hnoop : ∀ (l' : List Post), containsId l' p.id = true → postsInsertHandler l' p = l' := by
    intro l' h
    have h' : (l'.any fun post => post.id == p.id) = true := h
    unfold postsInsertHandler
    rw [if_pos h']
  have hcount : countId (postsInsertHandler l p) p.id ≠ 0 := by
    unfold postsInsertHandler
    by_cases h : (l.any fun post => post.id == p.id) = true
    · rw [if_pos h]
      obtain ⟨x, hx, hxid⟩ := List.any_eq_true.mp h
      intro hzero
      exact absurd hxid ((List.countP_eq_zero.mp hzero) x hx)
    · rw [if_neg h, countId_stableSort]
      unfold countId
      rw [List.countP_cons]
      simp
  have hidem : postsInsertHandler (postsInsertHandler l p) p = postsInsertHandler l p :=
    hnoop _ (containsId_of_countId_pos hcount)
  refine ⟨hidem, ?_, hnoop l, ?_, ?_, ?_, ?_⟩
  · intro hzero
    rw [hidem]
    unfold postsInsertHandler
    have hany : ¬(l.any fun post => post.id == p.id) = true := by
      intro h
      obtain ⟨x, hx, hxid⟩ := List.any_eq_true.mp h
      exact absurd hxid ((List.countP_eq_zero.mp hzero) x hx)
    rw [if_neg hany, countId_stableSort]
    unfold countId
    rw [List.countP_cons]
    unfold countId at hzero
    simp [hzero]
  · intro h
    have hnone := containsId_false_elim h
    unfold postsUpdateHandler
    calc l.map (fun post => if post.id == u.id then u else post)
        = l.map (fun post => post) :=
          List.map_congr_left (fun a ha => by rw [hnone a ha]; simp)
      _ = l := List.map_id' l
  · intro h
    have hnone := containsId_false_elim h
    unfold postsDeleteHandler
    refine List.filter_eq_self.mpr (fun a ha => ?_)
    simp [bne, hnone a ha]
  · intro h
    have hnone : ∀ task ∈ ts, (task.id == tu.id) = false := fun task htask =>
      Bool.eq_false_iff.mpr (List.any_eq_false.mp h task htask)
    unfold taskReducer
    calc ts.map (fun task => if task.id == tu.id then tu else task)
        = ts.map (fun task => task) :=
          List.map_congr_left (fun a ha => by rw [hnone a ha]; simp)
      _ = ts := List.map_id' ts
  · intro h
    have hnone : ∀ task ∈ ts, (task.id == td) = false := fun task htask =>
      Bool.eq_false_iff.mpr (List.any_eq_false.mp h task htask)
    unfold taskReducer
    refine List.filter_eq_self.mpr (fun a ha => ?_)
    simp [bne, hnone a ha]

/-- Claim C1 witness: the handler properties at a concrete two-record
collection and concrete fresh and stale notifications. -/
theorem handlers_idempotent_witness :
    (let p1 : Post := ⟨1, str "a", str "", str "a@x", none, str "2024-01-02"⟩
     let p2 : Post := ⟨2, str "b", str "", str "b@x", none, str "2024-01-01"⟩
     let p3 : Post := ⟨3, str "c", str "", str "c@x", none, str "2024-01-03"⟩
     let l : List Post := [p1, p2]
     let t1 : Task := ⟨7, str "t", str "", str "2024-01-01"⟩
     (postsInsertHandler (postsInsertHandler l p3) p3 = postsInsertHandler l p3)
     ∧ countId (postsInsertHandler (postsInsertHandler l p3) p3) p3.id = 1
     ∧ postsInsertHandler l p1 = l
     ∧ postsUpdateHandler l p3 = l
     ∧ postsDeleteHandler l p3 = l
     ∧ taskReducer [t1] (.updateTask ⟨8, str "u", str "", str "2024"⟩) = [t1]
     ∧ taskReducer [t1] (.deleteTask 9) = [t1]) := by
  have h := handlers_idempotent
    [⟨1, str "a", str "", str "a@x", none, str "2024-01-02"⟩,
     ⟨2, str "b", str "", str "b@x", none, str "2024-01-01"⟩]
    ⟨3, str "c", str "", str "c@x", none, str "2024-01-03"⟩
    ⟨3, str "c", str "", str "c@x", none, str "2024-01-03"⟩
    ⟨3, str "c", str "", str "c@x", none, str "2024-01-03"⟩
    [⟨7, str "t", str "", str "2024-01-01"⟩]
    ⟨8, str "u", str "", str "2024"⟩ 9
  have h2 := handlers_idempotent
    [⟨1, str "a", str "", str "a@x", none, str "2024-01-02"⟩,
     ⟨2, str "b", str "", str "b@x", none, str "2024-01-01"⟩]
    ⟨1, str "a", str "", str "a@x", none, str "2024-01-02"⟩
    ⟨1, str "a", str "", str "a@x", none, str "2024-01-02"⟩
    ⟨1, str "a", str "", str "a@x", none, str "2024-01-02"⟩
    [] ⟨0, [], [], []⟩ 0
  exact ⟨h.1, h.2.1 (by decide), h2.2.2.1 (by decide), h.2.2.2.1 (by decide),
    h.2.2.2.2.1 (by decide), h.2.2.2.2.2.1 (by decide), h.2.2.2.2.2.2 (by decide)⟩

/-! ### Claim C5: pagination merge de-duplicates and signals the end -/

/-- Claim C5: merging a fetched older page into the loaded feed keeps each
identifier at most once (a record overlapping between the loaded tail and
the page appears exactly once), preserves the descending sort order -
placing each record in its correct position - loses no record of either
side, and the no-more-pages flag is cleared exactly when the fetched page
is shorter than the requested page size. -/
theorem merge_page_correct (prev fetched : List Post) (pageSize : Nat)
    (hprevIds : (prev.map (fun post => post.id)).Nodup)
    (hfetchIds : (fetched.map (fun post => post.id)).Nodup)
    (hprevSorted : sortedDesc prev)
    (hfetchSorted : sortedDesc fetched)
    (hcross : ∀ p ∈ prev, ∀ f ∈ fetched, postLe p f = true) :
    ((mergePage prev fetched).map (fun post => post.id)).Nodup
    ∧ sortedDesc (mergePage prev fetched)
    ∧ (∀ i, containsId (mergePage prev fetched) i
        = (containsId prev i || containsId fetched i))
    ∧ (hasMoreAfterLoad true fetched pageSize = false ↔ fetched.length < pageSize) := by
  have hmerge : mergePage prev fetched
      = prev ++ fetched.filter
          (fun post => !((prev.map (fun post => post.id)).contains post.id)) := rfl
  have hsub : (fetched.filter
      (fun post => !((prev.map (fun post => post.id)).contains post.id))).Sublist fetched :=
    List.filter_sublist fetched
  refine ⟨?_, ?_, ?_, ?_⟩
  · rw [hmerge, List.map_append, List.nodup_append]
    refine ⟨hprevIds, (hsub.map (fun post => post.id)).nodup hfetchIds, ?_⟩
    intro a ha hb
    obtain ⟨post, hpost, rfl⟩ := List.mem_map.mp hb
    have hmem := List.mem_filter.mp hpost
    have hcontains : (prev.map (fun post => post.id)).contains post.id = false := by
      cases hc : (prev.map (fun post => post.id)).contains post.id with
      | false => rfl
      | true => rw [hc] at hmem; exact absurd hmem.2 (by simp)
    rw [List.contains, Bool.eq_false_iff] at hcontains
    exact hcontains (List.elem_iff.mpr ha)
  · rw [hmerge]
    unfold sortedDesc
    rw [List.pairwise_append]
    exact ⟨hprevSorted, hfetchSorted.sublist hsub,
      fun a ha b hb => hcross a ha b (List.mem_filter.mp hb).1⟩
  · intro i
    rw [hmerge]
    unfold containsId
    rw [List.any_append]
    cases hprevAny : prev.any (fun post => post.id == i) with
    | true => simp
    | false =>
      simp only [Bool.false_or]
      cases hf : fetched.any (fun post => post.id == i) with
      | true =>
        obtain ⟨x, hx, hxid⟩ := List.any_eq_true.mp hf
        have hxnotin : (prev.map (fun post => post.id)).contains x.id = false := by
          cases hc : (prev.map (fun post => post.id)).contains x.id with
          | false => rfl
          | true =>
            obtain ⟨q, hq, hqid⟩ := List.mem_map.mp (List.elem_iff.mp hc)
            have : prev.any (fun post => post.id == i) = true :=
              List.any_eq_true.mpr ⟨q, hq, by rw [hqid]; exact hxid⟩
            rw [this] at hprevAny
            exact absurd hprevAny (by simp)
        exact List.any_eq_true.mpr
          ⟨x, List.mem_filter.mpr ⟨hx, by rw [hxnotin]; rfl⟩, hxid⟩
      | false =>
        cases hfl : (fetched.filter
            (fun post => !((prev.map (fun post => post.id)).contains post.id))).any
            (fun post => post.id == i) with
        | false => rfl
        | true =>
          obtain ⟨x, hx, hxid⟩ := List.any_eq_true.mp hfl
          have : fetched.any (fun post => post.id == i) = true :=
            List.any_eq_true.mpr ⟨x, (List.mem_filter.mp hx).1, hxid⟩
          rw [this] at hf
          exact hf
  · unfold hasMoreAfterLoad
    by_cases h : fetched.length < pageSize <;> simp [h]

/-- Claim C5 witness: a loaded feed of two records merged with a page that
overlaps it in one record, at the concrete page size five. -/
theorem merge_page_witness :
    ((mergePage [samplePost 3 (str "3"), samplePost 2 (str "2")]
        [samplePost 2 (str "2"), samplePost 1 (str "1")]).map
          (fun post => post.id)).Nodup
    ∧ sortedDesc (mergePage [samplePost 3 (str "3"), samplePost 2 (str "2")]
        [samplePost 2 (str "2"), samplePost 1 (str "1")])
    ∧ (∀ i, containsId (mergePage [samplePost 3 (str "3"), samplePost 2 (str "2")]
          [samplePost 2 (str "2"), samplePost 1 (str "1")]) i
        = (containsId [samplePost 3 (str "3"), samplePost 2 (str "2")] i
            || containsId [samplePost 2 (str "2"), samplePost 1 (str "1")] i))
    ∧ (hasMoreAfterLoad true [samplePost 2 (str "2"), samplePost 1 (str "1")]
          POSTS_PAGE_SIZE = false
        ↔ ([samplePost 2 (str "2"), samplePost 1 (str "1")] : List Post).length
            < POSTS_PAGE_SIZE) :=
  merge_page_correct
    [samplePost 3 (str "3"), samplePost 2 (str "2")]
    [samplePost 2 (str "2"), samplePost 1 (str "1")]
    POSTS_PAGE_SIZE
    (by decide) (by decide)
    (by unfold sortedDesc; decide)
    (by unfold sortedDesc; decide)
    (by decide)

/-! ### Claim C6 (corrected): delete removes the stored image first -/

/-- Claim C6 counterexample: a reference whose URL ends exactly at the
bucket marker parses to the empty-string path - a non-null value - yet
the delete orchestrator issues no storage-delete call at all: the
truthiness guard on reference.path rejects the empty string and the trace
goes straight to the database delete. -/
theorem delete_empty_path_counterexample :
    (let post : Post := ⟨5, str "t", str "", str "e@x",
        some (str "|https://h/storage/v1/object/public/posts-images/"), str "2024"⟩
     let oracle : JSStr → Option JSStr :=
       fun _ => some (str "/storage/v1/object/public/posts-images/")
     parseImageReference oracle post.image_url POSTS_STORAGE_BUCKET
        = JSResult.ok ⟨some (str "|https://h/storage/v1/object/public/posts-images/"),
            some [], some (str "https://h/storage/v1/object/public/posts-images/")⟩
     ∧ handleDeletePost oracle true true post
        = [DeleteEvent.dbDelete 5, DeleteEvent.toastSuccess]) := by decide

/-- Claim C6 (amended): when the image reference of the record parses to a
non-null and non-empty path, handleDeletePost issues exactly one
storage-delete call, carrying that path, as the first event of its trace,
before any database delete; if the storage delete fails the database
delete never happens and the error is surfaced as the single toast; when
the storage delete succeeds the trace continues with exactly the database
delete and its outcome; and when the reference has no path - or the
empty-string path, which the truthiness guard also rejects - no
storage-delete call is issued at all. -/
theorem delete_orders_storage_first (urlParse : JSStr → Option JSStr)
    (storageOk dbOk : Bool) (post : Post) (ref : ImageReference)
    (href : parseImageReference urlParse post.image_url POSTS_STORAGE_BUCKET
      = JSResult.ok ref) :
    (∀ p, ref.path = some p → p ≠ [] →
      ∃ rest, handleDeletePost urlParse storageOk dbOk post
          = DeleteEvent.storageRemove p :: rest
        ∧ (∀ q, DeleteEvent.storageRemove q ∉ rest)
        ∧ (storageOk = false →
            (∀ i, DeleteEvent.dbDelete i ∉ rest) ∧ DeleteEvent.toastError ∈ rest)
        ∧ (storageOk = true → rest = deleteDbPart dbOk post.id))
    ∧ (ref.path = none ∨ ref.path = some [] →
        ∀ q, DeleteEvent.storageRemove q ∉ handleDeletePost urlParse storageOk dbOk post) := by
  have htrace : handleDeletePost urlParse storageOk dbOk post
      = match ref.path with
        | some p =>
          if p = [] then deleteDbPart dbOk post.id
          else if storageOk then DeleteEvent.storageRemove p :: deleteDbPart dbOk post.id
          else [DeleteEvent.storageRemove p, DeleteEvent.toastError]
        | none => deleteDbPart dbOk post.id := by
    unfold handleDeletePost
    rw [href]
  constructor
  · intro p hp hpne
    rw [htrace, hp]
    simp only [if_neg hpne]
    cases storageOk with
    | true =>
      refine ⟨deleteDbPart dbOk post.id, rfl, ?_, ?_, fun _ => rfl⟩
      · intro q
        cases dbOk <;> simp [deleteDbPart]
      · intro h
        exact absurd h (by simp)
    | false =>
      refine ⟨[DeleteEvent.toastError], rfl, ?_, ?_, ?_⟩
      · intro q
        simp
      · exact fun _ => ⟨fun i => by simp, by simp⟩
      · intro h
        exact absurd h (by simp)
  · intro hor q
    rcases hor with hnone | hempty
    · rw [htrace, hnone]
      cases dbOk <;> simp [deleteDbPart]
    · rw [htrace, hempty]
      cases dbOk <;> simp [deleteDbPart]

/-- Claim C6 witness: deleting a concrete record whose reference parses to
the path posts/a.png (both service calls succeeding), and a concrete
record with no image reference. -/
theorem delete_orders_storage_first_witness :
    (∃ rest,
      handleDeletePost (fun _ => none) true true
          ⟨5, str "t", str "", str "e@x",
           some (str "posts/a.png|https://h/x"), str "2024"⟩
        = DeleteEvent.storageRemove (str "posts/a.png") :: rest
      ∧ (∀ q, DeleteEvent.storageRemove q ∉ rest)
      ∧ (true = false →
          (∀ i, DeleteEvent.dbDelete i ∉ rest) ∧ DeleteEvent.toastError ∈ rest)
      ∧ (true = true → rest = deleteDbPart true 5))
    ∧ (∀ q, DeleteEvent.storageRemove q
        ∉ handleDeletePost (fun _ => none) true true
            ⟨6, str "t", str "", str "e@x", none, str "2024"⟩) :=
  ⟨(delete_orders_storage_first (fun _ => none) true true
      ⟨5, str "t", str "", str "e@x",
       some (str "posts/a.png|https://h/x"), str "2024"⟩
      ⟨some (str "posts/a.png|https://h/x"), some (str "posts/a.png"),
       some (str "https://h/x")⟩ (by decide)).1 (str "posts/a.png") rfl (by decide),
   (delete_orders_storage_first (fun _ => none) true true
      ⟨6, str "t", str "", str "e@x", none, str "2024"⟩
      ⟨none, none, none⟩ (by decide)).2 (Or.inl rfl)⟩

/-! ### Claim C8: the stats reducer computes counts and latest timestamps -/

theorem statsLookup_statsInsert (m : StatsMap) (k : JSStr) (v : PostStats) (key : JSStr) :
    statsLookup (statsInsert k v m) key
      = if k == key then some v else statsLookup m key := by
  induction m with
  | nil => rfl
  | cons e rest ih =>
    by_cases hek : (e.1 == k) = true
    · have he : e.1 = k := eq_of_beq hek
      unfold statsInsert
      rw [if_pos hek]
      cases hkk : (k == key) with
      | true => simp [statsLookup, hkk]
      | false => simp [statsLookup, hkk, he]
    · unfold statsInsert
      rw [if_neg hek]
      by_cases hekey : (e.1 == key) = true
      · have hkk : (k == key) = false := by
          cases hkk' : (k == key) with
          | false => rfl
          | true =>
            have h1 : e.1 = key := eq_of_beq hekey
            have h2 : k = key := eq_of_beq hkk'
            exact absurd (beq_iff_eq.mpr (h1.trans h2.symm)) hek
        simp [statsLookup, hekey, hkk]
      · simp [statsLookup, hekey, ih]

theorem statsStep_ne (dp : JSStr → Option Int) (m : StatsMap) (r : StatsRow)
    (key : JSStr) (h : rowKey r ≠ some key) :
    statsLookup (statsStep dp m r) key = statsLookup m key := by
  unfold statsStep
  cases hr : rowKey r with
  | none => rfl
  | some k =>
    have hk : (k == key) = false := by
      cases hkk : (k == key) with
      | false => rfl
      | true =>
        have : rowKey r = some key := by rw [hr, eq_of_beq hkk]
        exact absurd this h
    rw [statsLookup_statsInsert, hk]
    simp

theorem statsStep_self (dp : JSStr → Option Int) (m : StatsMap) (r : StatsRow)
    (key : JSStr) (h : rowKey r = some key) :
    statsLookup (statsStep dp m r) key
      = some (updateStats dp ((statsLookup m key).getD ⟨0, none⟩) r) := by
  unfold statsStep
  rw [h]
  rw [statsLookup_statsInsert]
  simp

theorem lookup_foldl (dp : JSStr → Option Int) (rows : List StatsRow) :
    ∀ (m : StatsMap) (key : JSStr),
      statsLookup (List.foldl (statsStep dp) m rows) key
        = List.foldl (perKeyStep dp) (statsLookup m key) (ownRows rows key) := by
  induction rows with
  | nil => intro m key; rfl
  | cons r rest ih =>
    intro m key
    by_cases h : rowKey r = some key
    · have hfilter : ownRows (r :: rest) key = r :: ownRows rest key := by
        unfold ownRows
        simp [List.filter_cons, h]
      rw [List.foldl_cons, ih, hfilter, List.foldl_cons, statsStep_self dp m r key h]
      rfl
    · have hfilter : ownRows (r :: rest) key = ownRows rest key := by
        unfold ownRows
        simp [List.filter_cons, h]
      rw [List.foldl_cons, ih, statsStep_ne dp m r key h, hfilter]

theorem perKey_fold_from (dp : JSStr → Option Int) (rs : List StatsRow) :
    ∀ (c : Nat) (t : JSStr) (M : Int),
      dp t = some M →
      (∀ r ∈ rs, ∃ ca n, r.created_at = some ca ∧ ca ≠ [] ∧ dp ca = some n) →
      ∃ t2 M2,
        List.foldl (perKeyStep dp) (some ⟨c, some t⟩) rs = some ⟨c + rs.length, some t2⟩
        ∧ dp t2 = some M2
        ∧ (t2 = t ∨ ∃ r ∈ rs, r.created_at = some t2)
        ∧ M ≤ M2
        ∧ (∀ n ∈ rowParses dp rs, n ≤ M2) := by
  induction rs with
  | nil =>
    intro c t M ht _
    exact ⟨t, M, rfl, ht, Or.inl rfl, le_refl M, by simp [rowParses]⟩
  | cons r rest ih =>
    intro c t M ht hgood
    obtain ⟨ca, n, hca, hcane, hdpca⟩ := hgood r (List.mem_cons_self r rest)
    have hgood' := fun x hx => hgood x (List.mem_cons_of_mem r hx)
    have hparse : rowParses dp (r :: rest) = n :: rowParses dp rest := by
      simp [rowParses, List.filterMap_cons, hca, hdpca]
    have hstep : perKeyStep dp (some ⟨c, some t⟩) r
        = some (if M < n then (⟨c + 1, some ca⟩ : PostStats) else ⟨c + 1, some t⟩) := by
      simp [perKeyStep, updateStats, hca, hcane, hdpca, ht]
    by_cases hMn : M < n
    · rw [List.foldl_cons, hstep, if_pos hMn]
      obtain ⟨t2, M2, h1, h2, h3, h5, h6⟩ := ih (c + 1) ca n hdpca hgood'
      refine ⟨t2, M2, ?_, h2, ?_, ?_, ?_⟩
      · rw [h1, List.length_cons]
        have harith : c + 1 + rest.length = c + (rest.length + 1) := by omega
        rw [harith]
      · cases h3 with
        | inl heq => exact Or.inr ⟨r, List.mem_cons_self r rest, heq ▸ hca⟩
        | inr hmem =>
          obtain ⟨x, hx, hxc⟩ := hmem
          exact Or.inr ⟨x, List.mem_cons_of_mem r hx, hxc⟩
      · exact le_trans (le_of_lt hMn) h5
      · intro x hx
        rw [hparse] at hx
        rcases List.mem_cons.mp hx with rfl | hx'
        · exact h5
        · exact h6 x hx'
    · rw [List.foldl_cons, hstep, if_neg hMn]
      obtain ⟨t2, M2, h1, h2, h3, h5, h6⟩ := ih (c + 1) t M ht hgood'
      refine ⟨t2, M2, ?_, h2, ?_, h5, ?_⟩
      · rw [h1, List.length_cons]
        have harith : c + 1 + rest.length = c + (rest.length + 1) := by omega
        rw [harith]
      · cases h3 with
        | inl heq => exact Or.inl heq
        | inr hmem =>
          obtain ⟨x, hx, hxc⟩ := hmem
          exact Or.inr ⟨x, List.mem_cons_of_mem r hx, hxc⟩
      · intro x hx
        rw [hparse] at hx
        rcases List.mem_cons.mp hx with rfl | hx'
        · exact le_trans (le_of_not_lt hMn) h5
        · exact h6 x hx'

theorem perKey_fold_of_ne_nil (dp : JSStr → Option Int) (rs : List StatsRow)
    (hne : rs ≠ [])
    (hgood : ∀ r ∈ rs, ∃ ca n, r.created_at = some ca ∧ ca ≠ [] ∧ dp ca = some n) :
    ∃ t M, List.foldl (perKeyStep dp) none rs = some ⟨rs.length, some t⟩
      ∧ (∃ r ∈ rs, r.created_at = some t)
      ∧ dp t = some M
      ∧ (∀ n ∈ rowParses dp rs, n ≤ M) := by
  cases rs with
  | nil => exact absurd rfl hne
  | cons r rest =>
    obtain ⟨ca, n, hca, hcane, hdpca⟩ := hgood r (List.mem_cons_self r rest)
    have hgood' := fun x hx => hgood x (List.mem_cons_of_mem r hx)
    have hparse : rowParses dp (r :: rest) = n :: rowParses dp rest := by
      simp [rowParses, List.filterMap_cons, hca, hdpca]
    have hstep0 : perKeyStep dp none r = some ⟨1, some ca⟩ := by
      simp [perKeyStep, updateStats, hca, hcane, hdpca]
    rw [List.foldl_cons, hstep0]
    obtain ⟨t2, M2, h1, h2, h3, h5, h6⟩ := perKey_fold_from dp rest 1 ca n hdpca hgood'
    refine ⟨t2, M2, ?_, ?_, h2, ?_⟩
    · rw [h1, List.length_cons]
      have harith : 1 + rest.length = rest.length + 1 := by omega
      rw [harith]
    · cases h3 with
      | inl heq => exact ⟨r, List.mem_cons_self r rest, heq ▸ hca⟩
      | inr hmem =>
        obtain ⟨x, hx, hxc⟩ := hmem
        exact ⟨x, List.mem_cons_of_mem r hx, hxc⟩
    · intro x hx
      rw [hparse] at hx
      rcases List.mem_cons.mp hx with rfl | hx'
      · exact h5
      · exact h6 x hx'

/-- Claim C8: for every normalized author email, the stats reducer applied
to the full post set yields a count equal to the number of rows of that
author and a lastPostAt whose parsed value is the maximum parsed creation
timestamp among those rows (no entry at all when the author has no rows).
Stated for the rows of the author all carrying parseable non-empty
timestamps, as in the claim. -/
theorem stats_reducer_correct (dp : JSStr → Option Int) (rows : List StatsRow)
    (key : JSStr)
    (hgood : ∀ r ∈ ownRows rows key,
      ∃ ca n, r.created_at = some ca ∧ ca ≠ [] ∧ dp ca = some n) :
    (ownRows rows key = [] → statsLookup (refreshPostStats dp rows) key = none)
    ∧ (ownRows rows key ≠ [] →
        ∃ t M, statsLookup (refreshPostStats dp rows) key
            = some ⟨(ownRows rows key).length, some t⟩
          ∧ (∃ r ∈ ownRows rows key, r.created_at = some t)
          ∧ dp t = some M
          ∧ (∀ n ∈ rowParses dp (ownRows rows key), n ≤ M)) := by
  have hfold : statsLookup (refreshPostStats dp rows) key
      = List.foldl (perKeyStep dp) none (ownRows rows key) :=
    lookup_foldl dp rows [] key
  constructor
  · intro hempty
    rw [hfold, hempty]
    rfl
  · intro hne
    rw [hfold]
    exact perKey_fold_of_ne_nil dp (ownRows rows key) hne hgood

/-- Claim C8 witness: the sample post set of the spec - author a at
timestamps 1 and 2, author b at timestamp 3 - yields count 2 with
lastPostAt 2 for a and count 1 with lastPostAt 3 for b. -/
theorem stats_reducer_correct_witness :
    (∃ t M, statsLookup (refreshPostStats sampleDateParse sampleRows) (str "a")
        = some ⟨(ownRows sampleRows (str "a")).length, some t⟩
      ∧ (∃ r ∈ ownRows sampleRows (str "a"), r.created_at = some t)
      ∧ sampleDateParse t = some M
      ∧ (∀ n ∈ rowParses sampleDateParse (ownRows sampleRows (str "a")), n ≤ M))
    ∧ (∃ t M, statsLookup (refreshPostStats sampleDateParse sampleRows) (str "b")
        = some ⟨(ownRows sampleRows (str "b")).length, some t⟩
      ∧ (∃ r ∈ ownRows sampleRows (str "b"), r.created_at = some t)
      ∧ sampleDateParse t = some M
      ∧ (∀ n ∈ rowParses sampleDateParse (ownRows sampleRows (str "b")), n ≤ M))
    ∧ statsLookup (refreshPostStats sampleDateParse sampleRows) (str "a")
        = some ⟨2, some (str "2")⟩
    ∧ statsLookup (refreshPostStats sampleDateParse sampleRows) (str "b")
        = some ⟨1, some (str "3")⟩ := by
  refine ⟨?_, ?_, by decide, by decide⟩
  · refine (stats_reducer_correct sampleDateParse sampleRows (str "a") ?_).2 (by decide)
    intro r hr
    have hr' : r ∈ [(⟨some (str "a"), some (str "1")⟩ : StatsRow),
        ⟨some (str "a"), some (str "2")⟩] := by
      exact (by decide : ownRows sampleRows (str "a")
        = [⟨some (str "a"), some (str "1")⟩, ⟨some (str "a"), some (str "2")⟩]) ▸ hr
    rcases List.mem_cons.mp hr' with rfl | hr''
    · exact ⟨['1'], 1, rfl, by decide, rfl⟩
    · rcases List.mem_cons.mp hr'' with rfl | hr'''
      · exact ⟨['2'], 2, rfl, by decide, rfl⟩
      · exact absurd hr''' (List.not_mem_nil r)
  · refine (stats_reducer_correct sampleDateParse sampleRows (str "b") ?_).2 (by decide)
    intro r hr
    have hr' : r ∈ [(⟨some (str "b"), some (str "3")⟩ : StatsRow)] := by
      exact (by decide : ownRows sampleRows (str "b")
        = [⟨some (str "b"), some (str "3")⟩]) ▸ hr
    rcases List.mem_cons.mp hr' with rfl | hr''
    · exact ⟨['3'], 3, rfl, by decide, rfl⟩
    · exact absurd hr'' (List.not_mem_nil r)

/-! ### Claim C9: edge rows of the stats reducer -/

/-- Claim C9: a row whose email is not a string or is empty after
normalization is excluded from the stats entirely - removing it from
anywhere in the row list leaves the whole computed map unchanged - while
a row with a valid author key whose creation timestamp is missing, empty,
or unparseable still increments that author's count by exactly one and
leaves lastPostAt at its previous value. -/
theorem stats_edge_rows (dp : JSStr → Option Int) (xs ys rows : List StatsRow)
    (r : StatsRow) (key : JSStr) :
    (rowKey r = none →
      refreshPostStats dp (xs ++ r :: ys) = refreshPostStats dp (xs ++ ys))
    ∧ (rowKey r = some key →
        (r.created_at = none ∨ r.created_at = some []
          ∨ ∃ ca, r.created_at = some ca ∧ dp ca = none) →
        statsLookup (refreshPostStats dp (rows ++ [r])) key
          = some ⟨((statsLookup (refreshPostStats dp rows) key).getD ⟨0, none⟩).count + 1,
                  ((statsLookup (refreshPostStats dp rows) key).getD ⟨0, none⟩).lastPostAt⟩) := by
  constructor
  · intro h
    have hskip : ∀ m, statsStep dp m r = m := by
      intro m
      unfold statsStep
      rw [h]
    unfold refreshPostStats
    rw [List.foldl_append, List.foldl_cons, hskip, List.foldl_append]
  · intro hk hbad
    unfold refreshPostStats
    rw [List.foldl_append, List.foldl_cons, List.foldl_nil,
      statsStep_self dp _ r key hk]
    rcases hbad with h | h | ⟨ca, hca, hdp⟩
    · simp [updateStats, h]
    · simp [updateStats, h]
    · simp [updateStats, hca, hdp]

/-- Claim C9 witness: a row with a non-string email is dropped from the
middle of the row list without any effect, and appending a row of author
a with a missing timestamp to the sample set raises the count of a from
2 to 3 while lastPostAt stays at timestamp 2. -/
theorem stats_edge_rows_witness :
    refreshPostStats sampleDateParse
        ([⟨some (str "a"), some (str "1")⟩]
          ++ ⟨none, some (str "9")⟩ :: [⟨some (str "b"), some (str "3")⟩])
      = refreshPostStats sampleDateParse
          ([⟨some (str "a"), some (str "1")⟩] ++ [⟨some (str "b"), some (str "3")⟩])
    ∧ statsLookup (refreshPostStats sampleDateParse
          (sampleRows ++ [⟨some (str "a"), none⟩])) (str "a")
      = some ⟨((statsLookup (refreshPostStats sampleDateParse sampleRows)
                  (str "a")).getD ⟨0, none⟩).count + 1,
              ((statsLookup (refreshPostStats sampleDateParse sampleRows)
                  (str "a")).getD ⟨0, none⟩).lastPostAt⟩
    ∧ statsLookup (refreshPostStats sampleDateParse
          (sampleRows ++ [⟨some (str "a"), none⟩])) (str "a")
      = some ⟨3, some (str "2")⟩ :=
  ⟨(stats_edge_rows sampleDateParse [⟨some (str "a"), some (str "1")⟩]
      [⟨some (str "b"), some (str "3")⟩] [] ⟨none, some (str "9")⟩ []).1 rfl,
   (stats_edge_rows sampleDateParse [] [] sampleRows
      ⟨some (str "a"), none⟩ (str "a")).2 (by decide) (Or.inl rfl),
   by decide⟩

end MicroFeed
